import Mathlib

/-!
# Verification of the MDM server core (src/mdm-server-standalone.ts)

Shallow embedding of the plist codec, device registry, command queue and the
check-in / command protocol handlers of the standalone MDM server, with
theorems settling the specification claims about them.

Modelling conventions:
* JS strings are `List Char` (`JStr`); JS `Map` and plain objects are
  association lists with JS `Map.set` / property-assignment update semantics.
* `Date` values are abstract `Nat` timestamps supplied by the caller;
  `uuidv4()` results are fresh identifier strings supplied by the caller.
* JS numbers are modelled as integers (`Int`); a non-integral numeric wire
  value is kept abstract as its source text (`PValue.real`).
-/

set_option maxHeartbeats 1000000
set_option maxRecDepth 100000

/-- JavaScript strings, modelled as their character lists. -/
abbrev JStr := List Char

/-- The dynamic values (`unknown`) that the server's plist codec handles:
null/undefined, booleans, numbers (integral, or non-integral kept as source
text), strings, arrays and objects. -/
inductive PValue where
  | nullV : PValue
  | bool (b : Bool) : PValue
  | int (n : Int) : PValue
  | real (src : JStr) : PValue
  | str (s : JStr) : PValue
  | arr (xs : List PValue) : PValue
  | dict (es : List (JStr × PValue)) : PValue

/-- A JS record (`Record<string, unknown>`), e.g. a parsed plist. -/
abbrev Rec := List (JStr × PValue)

/-- One digit character (`Nat.digitChar` agrees with JS digit printing). -/
def digitOf (d : Nat) : Char := Nat.digitChar d

/-- Decimal digits of `n`, most significant first; fuel-based so it reduces
definitionally (`fuel > n` suffices). -/
def natDigitsAux : Nat → Nat → JStr
  | 0, _ => []
  | fuel + 1, n =>
    if n < 10 then [digitOf n]
    else natDigitsAux fuel (n / 10) ++ [digitOf (n % 10)]

/-- Decimal rendering of a natural number, as JS prints it. -/
def natDigits (n : Nat) : JStr := natDigitsAux (n + 1) n

/-- Decimal rendering of an integer, as JS template interpolation prints an
integral number. -/
def intRepr (i : Int) : JStr :=
  if i < 0 then '-' :: natDigits i.natAbs else natDigits i.toNat

/-- The string escaping in `toPlist`: `&` → `&amp;`, `<` → `&lt;`, `>` → `&gt;`
(the three sequential global replaces of the source amount to this one pass,
since the replacements introduce no character that a later pass rewrites into
a different entity). -/
def escapeXml : JStr → JStr
  | [] => []
  | c :: t =>
    (if c = '&' then ("&amp;".toList)
     else if c = '<' then ("&lt;".toList)
     else if c = '>' then ("&gt;".toList)
     else [c]) ++ escapeXml t

mutual

/-- `convertValue` of `toPlist`: renders one value as plist XML. -/
def convertValue : PValue → JStr
  | .nullV => ("<string></string>".toList)
  | .bool b => if b then ("<true/>".toList) else ("<false/>".toList)
  | .int n => ("<integer>".toList) ++ intRepr n ++ ("</integer>".toList)
  | .real s => ("<real>".toList) ++ s ++ ("</real>".toList)
  | .str s => ("<string>".toList) ++ escapeXml s ++ ("</string>".toList)
  | .arr xs => ("<array>".toList) ++ convertList xs ++ ("</array>".toList)
  | .dict es => ("<dict>".toList) ++ convertEntries es ++ ("</dict>".toList)

/-- Renders the elements of an array, concatenated (`value.map(convertValue).join('')`). -/
def convertList : List PValue → JStr
  | [] => []
  | v :: t => convertValue v ++ convertList t

/-- Renders the entries of a dict: `<key>k</key>` followed by the value
(`entries.map(([k,v]) => ...).join('')`). -/
def convertEntries : List (JStr × PValue) → JStr
  | [] => []
  | (k, v) :: t => ("<key>".toList) ++ k ++ ("</key>".toList) ++ convertValue v ++ convertEntries t

end

/-- The fixed XML prologue of `toPlist`, up to and including the newline after
`<plist version="1.0">`. -/
def plistHeader : JStr :=
  ("<?xml version=\"1.0\" encoding=\"UTF-8\"?>\n<!DOCTYPE plist PUBLIC \"-//Apple//DTD PLIST 1.0//EN\" \"http://www.apple.com/DTDs/PropertyList-1.0.dtd\">\n<plist version=\"1.0\">\n".toList)

/-- `toPlist(obj)`: the full serialized plist document for a record. -/
def toPlist (obj : Rec) : JStr :=
  plistHeader ++ convertValue (.dict obj) ++ ("\n</plist>".toList)

/-! ## The parser `parsePlist`

`parsePlist` in the source is driven by two regexes:
`/<dict>([\s\S]*?)<\/dict>/` extracts the (lazily matched) content between the
first `<dict>` and the first `</dict>` after it, and the global
`/<key>([^<]+)<\/key>\s*(<[^>]+>([^<]*)<\/[^>]+>|<(true|false)\/>)/g` is run
repeatedly over that content.  Both regexes are deterministic on every input
(each quantified piece is forced by the literal that follows it), so they are
embedded as the equivalent explicit scanners below. -/

/-- Split a string at the first occurrence of `pat`: leftmost-match semantics
of `String.prototype.match`. -/
def splitFirst (pat : JStr) : JStr → Option (JStr × JStr)
  | [] => if pat.isPrefixOf ([] : JStr) then some ([], []) else none
  | c :: rest =>
    if pat.isPrefixOf (c :: rest) then some ([], (c :: rest).drop pat.length)
    else (splitFirst pat rest).map (fun p => (c :: p.1, p.2))

/-- The character class `\s` of JS regexes, which is also the ECMAScript
`WhiteSpace ∪ LineTerminator` set trimmed by `Number()`. -/
def jsSpace (c : Char) : Bool :=
  c == ' ' || c == '\t' || c == '\n' || c == '\r' || c == '\x0b' || c == '\x0c' ||
  c == ' ' || c == ' ' || c == ' ' || c == ' ' || c == ' ' ||
  c == ' ' || c == ' ' || c == ' ' || c == ' ' || c == ' ' ||
  c == ' ' || c == ' ' || c == ' ' || c == ' ' || c == ' ' ||
  c == ' ' || c == ' ' || c == '　' || c == '﻿'

/-- Strip leading and trailing ECMAScript whitespace (the implicit trim of
`Number(string)`). -/
def trimJs (s : JStr) : JStr :=
  ((s.dropWhile jsSpace).reverse.dropWhile jsSpace).reverse

/-- Numeric value of a digit string (most significant digit first). -/
def digitsToNat (l : JStr) : Nat := l.foldl (fun a c => a * 10 + (c.toNat - 48)) 0

/-- An exponent part that ends the literal: empty, or `e`/`E`, optional sign,
then one or more digits. -/
def expOk : JStr → Bool
  | [] => true
  | c :: r =>
    if c = 'e' ∨ c = 'E' then
      let r2 : JStr := match r with
        | s :: r' => if s = '+' ∨ s = '-' then r' else s :: r'
        | [] => []
      !r2.isEmpty && r2.all Char.isDigit
    else false

/-- ECMAScript `StrDecimalLiteral` without sign: `digits [. digits] [exp]` or
`. digits [exp]`. -/
def decLit (u : JStr) : Bool :=
  let ip := u.takeWhile Char.isDigit
  let r := u.dropWhile Char.isDigit
  if !ip.isEmpty then
    match r with
    | [] => true
    | '.' :: r2 => expOk (r2.dropWhile Char.isDigit)
    | _ => expOk r
  else
    match u with
    | '.' :: r2 => !(r2.takeWhile Char.isDigit).isEmpty && expOk (r2.dropWhile Char.isDigit)
    | _ => false

/-- Unsigned ECMAScript hex / octal / binary integer literals. -/
def radixLit : JStr → Bool
  | '0' :: c :: r =>
    if c = 'x' ∨ c = 'X' then
      !r.isEmpty && r.all (fun d => d.isDigit || ('a' ≤ d && d ≤ 'f') || ('A' ≤ d && d ≤ 'F'))
    else if c = 'o' ∨ c = 'O' then !r.isEmpty && r.all (fun d => '0' ≤ d && d ≤ '7')
    else if c = 'b' ∨ c = 'B' then !r.isEmpty && r.all (fun d => d == '0' || d == '1')
    else false
  | _ => false

/-- Unsigned numeric literal: `Infinity` or a decimal literal. -/
def unsignedNumeric (u : JStr) : Bool := u == ("Infinity".toList) || decLit u

/-- A trimmed nonempty string accepted by `Number()` (result not `NaN`). -/
def strNumeric (t : JStr) : Bool :=
  radixLit t ||
  (match t with
   | c :: r => if c = '+' ∨ c = '-' then unsignedNumeric r else unsignedNumeric (c :: r)
   | [] => unsignedNumeric [])

/-- The integral `Number()` values this model evaluates exactly: an optional
sign followed by decimal digits.  Other accepted numeric forms are kept
abstract via `PValue.real`. -/
def jsIntOf : JStr → Option Int
  | [] => none
  | c :: r =>
    if c = '-' then
      if !r.isEmpty && r.all Char.isDigit then some (-(digitsToNat r : Int)) else none
    else if c = '+' then
      if !r.isEmpty && r.all Char.isDigit then some ((digitsToNat r : Int)) else none
    else
      if (c :: r).all Char.isDigit then some ((digitsToNat (c :: r) : Int)) else none

/-- `Number(s)` as used in `parsePlist`: `none` models `NaN`; an integral
value becomes `.int`, any other accepted number is kept as `.real s`. -/
def jsToNumber (s : JStr) : Option PValue :=
  let t := trimJs s
  if t.isEmpty then some (.int 0)
  else if strNumeric t then
    match jsIntOf t with
    | some n => some (.int n)
    | none => some (.real s)
  else none

/-- Captured value of one `keyRegex` match: the scalar-tag alternative
(group 3, the text between an open and a close tag) or the boolean
alternative (group 4). -/
inductive RawVal where
  | content (s : JStr)
  | boolean (b : Bool)

/-- The first `keyRegex` alternative `<[^>]+>([^<]*)<\/[^>]+>` at the current
position.  Each quantified piece is forced by the literal after it
(`[^>]+` runs to the next `>`, `[^<]*` to the next `<`, and shorter
backtracking candidates end on a character the following literal rejects),
so the regex collapses to this straight-line scan: the `takeWhile` runs are
the character classes and the literal patterns are the forced delimiters. -/
def matchTagged : JStr → Option (JStr × JStr)
  | '<' :: s1 =>
    if (s1.takeWhile (fun c => !(c == '>'))).isEmpty then none
    else
      match s1.dropWhile (fun c => !(c == '>')) with
      | '>' :: s2 =>
        let content := s2.takeWhile (fun c => !(c == '<'))
        (match s2.dropWhile (fun c => !(c == '<')) with
         | '<' :: '/' :: s4 =>
           if (s4.takeWhile (fun c => !(c == '>'))).isEmpty then none
           else
             match s4.dropWhile (fun c => !(c == '>')) with
             | '>' :: s5 => some (content, s5)
             | _ => none
         | _ => none)
      | _ => none
  | _ => none

/-- The second `keyRegex` alternative `<(true|false)\/>`. -/
def matchBoolTag : JStr → Option (Bool × JStr)
  | '<' :: 't' :: 'r' :: 'u' :: 'e' :: '/' :: '>' :: r => some (true, r)
  | '<' :: 'f' :: 'a' :: 'l' :: 's' :: 'e' :: '/' :: '>' :: r => some (false, r)
  | _ => none

/-- One attempt of the whole `keyRegex` at the current position: the literal
`<key>`, the nonempty `[^<]+` key capture forced to end at the literal
`</key>`, optional whitespace, then the two value alternatives in order. -/
def tryMatch : JStr → Option (JStr × RawVal × JStr)
  | '<' :: 'k' :: 'e' :: 'y' :: '>' :: s1 =>
    let key := s1.takeWhile (fun c => !(c == '<'))
    if key.isEmpty then none
    else
      match s1.dropWhile (fun c => !(c == '<')) with
      | '<' :: '/' :: 'k' :: 'e' :: 'y' :: '>' :: s3 =>
        let s4 := s3.dropWhile jsSpace
        (match matchTagged s4 with
         | some p => some (key, .content p.1, p.2)
         | none =>
           match matchBoolTag s4 with
           | some p => some (key, .boolean p.1, p.2)
           | none => none)
      | _ => none
  | _ => none

/-- The repeated `keyRegex.exec` loop: leftmost match, resume after each
match.  Fuel-based (the initial string length suffices, since every match
consumes at least one character). -/
def scanKeys : Nat → JStr → List (JStr × RawVal)
  | 0, _ => []
  | fuel + 1, s =>
    match tryMatch s with
    | some m => (m.1, m.2.1) :: scanKeys fuel m.2.2
    | none =>
      match s with
      | [] => []
      | _ :: t => scanKeys fuel t

/-- Association-list read, the semantics of `Map.get` / JS property read. -/
def getA {α : Type} (k : JStr) : List (JStr × α) → Option α
  | [] => none
  | (k', v) :: t => if k' = k then some v else getA k t

/-- Association-list write, the semantics of `Map.set` / JS property
assignment: update in place if present, else append. -/
def setA {α : Type} (k : JStr) (v : α) : List (JStr × α) → List (JStr × α)
  | [] => [(k, v)]
  | (k', v') :: t => if k' = k then (k, v) :: t else (k', v') :: setA k v t

/-- `parsePlist(xml)`: extract the first lazily-matched `<dict>…</dict>`
block (or return an empty record), then collect every `keyRegex` match,
assigning `result[key]` with the `isNaN(Number(value))` coercion of the
source. -/
def parsePlist (xml : JStr) : Rec :=
  match splitFirst ("<dict>".toList) xml with
  | none => []
  | some d =>
    match splitFirst ("</dict>".toList) d.2 with
    | none => []
    | some p =>
      (scanKeys p.1.length p.1).foldl
        (fun acc kv =>
          match kv.2 with
          | .boolean b => setA kv.1 (.bool b) acc
          | .content s => setA kv.1 ((jsToNumber s).getD (.str s)) acc) []

example : convertValue (.dict []) = ("<dict></dict>".toList) := rfl
example : toPlist [] = plistHeader ++ ("<dict></dict>".toList) ++ ("\n</plist>".toList) := rfl
example : convertValue (.int 42) = ("<integer>42</integer>".toList) := rfl
example : parsePlist (toPlist []) = [] := rfl
example : parsePlist (toPlist [(("K".toList), .str ("hello".toList))])
    = [(("K".toList), .str ("hello".toList))] := rfl
example : parsePlist (toPlist [(("K".toList), .str ("42".toList))])
    = [(("K".toList), .int 42)] := rfl
example : parsePlist (toPlist [(("A".toList), .bool true), (("B".toList), .int (-7)),
      (("C".toList), .str ("x y".toList))])
    = [(("A".toList), .bool true), (("B".toList), .int (-7)), (("C".toList), .str ("x y".toList))] := rfl

/-! ## Device registry and check-in handlers -/

/-- `enrollmentStatus` values of a device record. -/
inductive EnrollmentStatus where
  | pending
  | enrolled
  | unenrolled
deriving DecidableEq

/-- The `MDMDevice` record.  `Date` fields are abstract `Nat` timestamps;
fields the server never writes stay at their defaults. -/
structure MDMDevice where
  id : JStr
  udid : JStr
  serialNumber : JStr
  deviceName : JStr
  modelName : JStr
  model : JStr
  osVersion : JStr
  buildVersion : JStr
  productName : JStr
  deviceCapacity : Option Int := none
  availableCapacity : Option Int := none
  batteryLevel : Option Int := none
  wifiMac : Option JStr := none
  bluetoothMac : Option JStr := none
  isSupervised : Bool
  enrollmentStatus : EnrollmentStatus
  enrolledAt : Option Nat := none
  lastCheckIn : Option Nat := none
  pushToken : Option JStr := none
  pushMagic : Option JStr := none

/-- The `CheckInMessage` shape: `UDID` is required by the handlers' use;
the rest are optional wire fields. -/
structure CheckInMessage where
  MessageType : JStr
  Topic : JStr := []
  UDID : JStr
  Token : Option JStr := none
  PushMagic : Option JStr := none
  OSVersion : Option JStr := none
  BuildVersion : Option JStr := none
  ProductName : Option JStr := none
  SerialNumber : Option JStr := none
  DeviceName : Option JStr := none
  Model : Option JStr := none
  ModelName : Option JStr := none

/-- The `devices` map. -/
abbrev Registry := List (JStr × MDMDevice)

/-- The empty acknowledgment body `toPlist({})` sent by every check-in
handler. -/
def emptyAck : JStr := toPlist []

/-- The fresh `MDMDevice` object built by `handleAuthenticate` (`uuidv4()`
modelled as the supplied `freshId`; `x || ''` on optional strings is
`Option.getD` with the empty string). -/
def mkAuthDevice (freshId : JStr) (m : CheckInMessage) : MDMDevice :=
  { id := freshId
    udid := m.UDID
    serialNumber := m.SerialNumber.getD []
    deviceName := m.DeviceName.getD []
    modelName := m.ModelName.getD []
    model := m.Model.getD []
    osVersion := m.OSVersion.getD []
    buildVersion := m.BuildVersion.getD []
    productName := m.ProductName.getD []
    isSupervised := false
    enrollmentStatus := .pending }

/-- `handleAuthenticate`: build a brand-new record and `devices.set` it,
then answer the empty acknowledgment. -/
def handleAuthenticate (freshId : JStr) (m : CheckInMessage) (reg : Registry) :
    Registry × JStr :=
  (setA m.UDID (mkAuthDevice freshId m) reg, emptyAck)

/-- `handleTokenUpdate`: if the device exists, store the push credentials,
mark it enrolled and stamp the timestamps; otherwise do nothing.  Either way
answer the empty acknowledgment. -/
def handleTokenUpdate (now : Nat) (m : CheckInMessage) (reg : Registry) :
    Registry × JStr :=
  match getA m.UDID reg with
  | none => (reg, emptyAck)
  | some d =>
    (setA m.UDID
      { d with pushToken := m.Token, pushMagic := m.PushMagic,
               enrollmentStatus := .enrolled, enrolledAt := some now,
               lastCheckIn := some now } reg, emptyAck)

/-- `handleCheckOut`: if the device exists, mark it unenrolled; otherwise do
nothing.  Either way answer the empty acknowledgment. -/
def handleCheckOut (m : CheckInMessage) (reg : Registry) : Registry × JStr :=
  match getA m.UDID reg with
  | none => (reg, emptyAck)
  | some d => (setA m.UDID { d with enrollmentStatus := .unenrolled } reg, emptyAck)

/-- The `/checkin` dispatcher: route on `MessageType`; an unknown type is a
400 with no state change (`none` response). -/
def putCheckin (freshId : JStr) (now : Nat) (m : CheckInMessage) (reg : Registry) :
    Registry × Option JStr :=
  if m.MessageType = ("Authenticate".toList) then
    let r := handleAuthenticate freshId m reg
    (r.1, some r.2)
  else if m.MessageType = ("TokenUpdate".toList) then
    let r := handleTokenUpdate now m reg
    (r.1, some r.2)
  else if m.MessageType = ("CheckOut".toList) then
    let r := handleCheckOut m reg
    (r.1, some r.2)
  else (reg, none)

/-! ## Command queue and the `/mdm` handler -/

/-- The `status` values of a queued command. -/
inductive CommandStatus where
  | pending
  | sent
  | acknowledged
  | completed
  | failed
deriving DecidableEq

/-- The `MDMCommand` record. -/
structure MDMCommand where
  id : JStr
  deviceId : JStr
  commandType : JStr
  payload : Option Rec := none
  status : CommandStatus
  createdAt : Nat
  sentAt : Option Nat := none
  completedAt : Option Nat := none
  response : Option Rec := none
  errorMessage : Option JStr := none

/-- The `commandQueue` map: device identifier to its ordered command list. -/
abbrev CommandQueue := List (JStr × List MDMCommand)

/-- JS strict equality of a dynamic value against a string
(`cmd.id === response.CommandUUID`, `response.Status === 'Idle'`). -/
def isStrV (o : Option PValue) (s : JStr) : Bool :=
  match o with
  | some (.str t) => t == s
  | _ => false

/-- `getNextCommand(udid)`: first `pending` command of the device's queue
(`commands.find(cmd => cmd.status === 'pending')`). -/
def getNextCommand (udid : JStr) (cq : CommandQueue) : Option MDMCommand :=
  ((getA udid cq).getD []).find? (fun c => c.status == CommandStatus.pending)

/-- `buildCommandRequest(command)`: `{CommandUUID, Command: {RequestType,
...payload}}`; the object spread assigns each payload entry over the literal,
i.e. folds `setA`. -/
def buildCommandRequest (c : MDMCommand) : Rec :=
  [(("CommandUUID".toList), .str c.id),
   (("Command".toList),
    .dict ((c.payload.getD []).foldl (fun acc kv => setA kv.1 kv.2 acc)
      [(("RequestType".toList), .str c.commandType)]))]

/-- The in-place mutation `nextCommand.status = 'sent'; nextCommand.sentAt =
new Date()` performed on the object `getNextCommand` found inside the
device's queue array. -/
def markNextSent (now : Nat) (udid : JStr) (cq : CommandQueue) : CommandQueue :=
  let q := (getA udid cq).getD []
  match q.findIdx? (fun c => c.status == CommandStatus.pending) with
  | none => cq
  | some i =>
    match q.get? i with
    | none => cq
    | some c => setA udid (q.set i { c with status := .sent, sentAt := some now }) cq

/-- `processCommandResponse(udid, response)`: find the command whose `id`
strictly equals `response.CommandUUID` and, if found, mutate it to
`completed`, stamping `completedAt` and storing the whole response record. -/
def processCommandResponse (now : Nat) (udid : JStr) (rep : Rec) (cq : CommandQueue) :
    CommandQueue :=
  let q := (getA udid cq).getD []
  match q.findIdx? (fun c => isStrV (getA ("CommandUUID".toList) rep) c.id) with
  | none => cq
  | some i =>
    match q.get? i with
    | none => cq
    | some c =>
      setA udid
        (q.set i { c with status := .completed, completedAt := some now, response := some rep })
        cq

/-- The whole in-memory server state: `devices` and `commandQueue`. -/
structure ServerState where
  devices : Registry
  commandQueue : CommandQueue

/-- The shared "deliver next" tail of the `/mdm` handler: send the next
pending command (marking it sent) or the empty acknowledgment. -/
def deliverNext (now : Nat) (udid : JStr) (st : ServerState) : ServerState × Option JStr :=
  match getNextCommand udid st.commandQueue with
  | none => (st, some emptyAck)
  | some c =>
    ({ st with commandQueue := markNextSent now udid st.commandQueue },
     some (toPlist (buildCommandRequest c)))

/-- A record field read that yields a string, or `none`: a non-string value
there can never satisfy the string comparisons / `Map` lookups the handler
performs with it. -/
def repStrField (k : JStr) (rep : Rec) : Option JStr :=
  match getA k rep with
  | some (.str s) => some s
  | _ => none

/-- The `/mdm` handler on an already-decoded status report: unknown (or
non-string) `UDID` is a 401 (`none`); otherwise stamp `lastCheckIn`, then
`Idle` delivers next, `Acknowledged` resolves then delivers next, and any
other status gets the empty acknowledgment. -/
def putMdm (now : Nat) (rep : Rec) (st : ServerState) : ServerState × Option JStr :=
  match repStrField ("UDID".toList) rep with
  | none => (st, none)
  | some u =>
    match getA u st.devices with
    | none => (st, none)
    | some d =>
      let st1 : ServerState :=
        { st with devices := setA u { d with lastCheckIn := some now } st.devices }
      if isStrV (getA ("Status".toList) rep) ("Idle".toList) then
        deliverNext now u st1
      else if isStrV (getA ("Status".toList) rep) ("Acknowledged".toList) then
        deliverNext now u
          { st1 with commandQueue := processCommandResponse now u rep st1.commandQueue }
      else (st1, some emptyAck)

/-! ## REST submission endpoints -/

/-- `POST /api/devices/:udid/commands`: 404 (`none`) if the device has no
registry record, else append a fresh `pending` command to the device's
queue. -/
def apiQueueCommand (freshId : JStr) (now : Nat) (udid commandType : JStr)
    (payload : Option Rec) (st : ServerState) : ServerState × Option MDMCommand :=
  match getA udid st.devices with
  | none => (st, none)
  | some _ =>
    let c : MDMCommand :=
      { id := freshId, deviceId := udid, commandType := commandType,
        payload := payload, status := .pending, createdAt := now }
    ({ st with commandQueue := setA udid ((getA udid st.commandQueue).getD [] ++ [c]) st.commandQueue },
     some c)

/-- The default query list of `POST /api/devices/:udid/query`. -/
def defaultQueries : PValue :=
  .arr [.str ("UDID".toList), .str ("DeviceName".toList), .str ("OSVersion".toList),
        .str ("BuildVersion".toList), .str ("ModelName".toList), .str ("Model".toList),
        .str ("ProductName".toList), .str ("SerialNumber".toList),
        .str ("DeviceCapacity".toList), .str ("AvailableDeviceCapacity".toList),
        .str ("BatteryLevel".toList), .str ("WiFiMAC".toList),
        .str ("BluetoothMAC".toList), .str ("IsSupervised".toList)]

/-- `POST /api/devices/:udid/query`: append a `DeviceInformation` command —
with no registry existence check. -/
def apiQueryDevice (freshId : JStr) (now : Nat) (udid : JStr) (queries : Option PValue)
    (st : ServerState) : ServerState × MDMCommand :=
  let c : MDMCommand :=
    { id := freshId, deviceId := udid, commandType := ("DeviceInformation".toList),
      payload := some [(("Queries".toList), queries.getD defaultQueries)],
      status := .pending, createdAt := now }
  ({ st with commandQueue := setA udid ((getA udid st.commandQueue).getD [] ++ [c]) st.commandQueue },
   c)

/-- `POST /api/devices/:udid/lock`: append a `DeviceLock` command — with no
registry existence check (`message`/`phoneNumber` may be the JS `undefined`,
i.e. `PValue.nullV`). -/
def apiLockDevice (freshId : JStr) (now : Nat) (udid : JStr)
    (message phoneNumber : PValue) (st : ServerState) : ServerState × MDMCommand :=
  let c : MDMCommand :=
    { id := freshId, deviceId := udid, commandType := ("DeviceLock".toList),
      payload := some [(("Message".toList), message), (("PhoneNumber".toList), phoneNumber)],
      status := .pending, createdAt := now }
  ({ st with commandQueue := setA udid ((getA udid st.commandQueue).getD [] ++ [c]) st.commandQueue },
   c)

/-! ## Reachable states -/

/-- One externally triggerable state-changing operation of the server.
Fresh identifiers and timestamps are carried by the operation. -/
inductive ServerOp where
  | checkin (freshId : JStr) (now : Nat) (m : CheckInMessage)
  | mdm (now : Nat) (rep : Rec)
  | queueCommand (freshId : JStr) (now : Nat) (udid commandType : JStr) (payload : Option Rec)
  | queryDevice (freshId : JStr) (now : Nat) (udid : JStr) (queries : Option PValue)
  | lockDevice (freshId : JStr) (now : Nat) (udid : JStr) (message phoneNumber : PValue)

/-- State transition of one operation (response discarded). -/
def stepOp (op : ServerOp) (st : ServerState) : ServerState :=
  match op with
  | .checkin freshId now m =>
    { st with devices := (putCheckin freshId now m st.devices).1 }
  | .mdm now rep => (putMdm now rep st).1
  | .queueCommand f n u ct pl => (apiQueueCommand f n u ct pl st).1
  | .queryDevice f n u qs => (apiQueryDevice f n u qs st).1
  | .lockDevice f n u msg ph => (apiLockDevice f n u msg ph st).1

/-- The server's state at boot: both maps empty. -/
def initialState : ServerState := { devices := [], commandQueue := [] }

/-- State after a sequence of operations from boot. -/
def runOps (ops : List ServerOp) : ServerState :=
  ops.foldl (fun st op => stepOp op st) initialState

/-! ## Concrete scenario fixtures -/

/-- An `Authenticate` check-in for device `A1`. -/
def msgAuthA1 : CheckInMessage :=
  { MessageType := ("Authenticate".toList), UDID := ("A1".toList) }

/-- An `Idle` status report from device `A1`. -/
def repIdleA1 : Rec :=
  [(("UDID".toList), .str ("A1".toList)), (("Status".toList), .str ("Idle".toList))]

/-- Authenticate `A1`, enqueue `CMD1` then `CMD2`, then two consecutive
`Idle` polls with no acknowledgment in between (the spec's scenario 5). -/
def opsTwoPolls : List ServerOp :=
  [.checkin ("uuid-1".toList) 0 msgAuthA1,
   .queueCommand ("CMD1".toList) 1 ("A1".toList) ("DeviceLock".toList) none,
   .queueCommand ("CMD2".toList) 2 ("A1".toList) ("DeviceLock".toList) none,
   .mdm 3 repIdleA1,
   .mdm 4 repIdleA1]

/-- An already-enrolled device record for `A1`, with push credentials. -/
def devEnrolledA1 : MDMDevice :=
  { id := ("uuid-0".toList), udid := ("A1".toList), serialNumber := ("SN1".toList),
    deviceName := ("Mac".toList), modelName := [], model := [], osVersion := [],
    buildVersion := [], productName := [], isSupervised := false,
    enrollmentStatus := .enrolled, enrolledAt := some 10, lastCheckIn := some 10,
    pushToken := some ("tok123".toList), pushMagic := some ("magic".toList) }

/-- A command for `A1` already delivered and awaiting its response. -/
def c1sentA1 : MDMCommand :=
  { id := ("CMD1".toList), deviceId := ("A1".toList), commandType := ("DeviceLock".toList),
    status := .sent, createdAt := 1, sentAt := some 3 }

/-- A younger command for `A1` still queued. -/
def c2pendingA1 : MDMCommand :=
  { id := ("CMD2".toList), deviceId := ("A1".toList),
    commandType := ("DeviceInformation".toList), status := .pending, createdAt := 2 }

/-- The same first command, not yet delivered. -/
def c1pendingA1 : MDMCommand := { c1sentA1 with status := .pending, sentAt := none }

/-- An `Error` status report from `A1` referencing `CMD1`. -/
def repErrA1 : Rec :=
  [(("UDID".toList), .str ("A1".toList)), (("Status".toList), .str ("Error".toList)),
   (("CommandUUID".toList), .str ("CMD1".toList))]

/-- An `Acknowledged` status report from `A1` referencing `CMD1`. -/
def repAckCMD1 : Rec :=
  [(("UDID".toList), .str ("A1".toList)),
   (("Status".toList), .str ("Acknowledged".toList)),
   (("CommandUUID".toList), .str ("CMD1".toList))]

/-- Server state: `A1` enrolled, `CMD1` sent and unresolved, `CMD2` pending. -/
def stSentA1 : ServerState :=
  { devices := [(("A1".toList), devEnrolledA1)],
    commandQueue := [(("A1".toList), [c1sentA1, c2pendingA1])] }

/-- A `TokenUpdate` for an identifier (`X9`) that never authenticated. -/
def msgTokNew : CheckInMessage :=
  { MessageType := ("TokenUpdate".toList), UDID := ("X9".toList),
    Token := some ("tokX".toList), PushMagic := some ("magX".toList) }

/-- The one-entry record whose string leaf is the text `42`. -/
def m42 : Rec := [(("K".toList), .str ("42".toList))]

/-- A `TokenUpdate` for `A1` carrying push credentials. -/
def msgTokA1 : CheckInMessage :=
  { MessageType := ("TokenUpdate".toList), UDID := ("A1".toList),
    Token := some ("tokA".toList), PushMagic := some ("magA".toList) }

/-- Authenticate then enroll `A1`. -/
def opsEnrollA1 : List ServerOp :=
  [.checkin ("uuid-1".toList) 0 msgAuthA1, .checkin ("uuid-2".toList) 5 msgTokA1]

/-! ## Predicates the claims are about -/

/-- Number of commands of `udid` currently in `sent` state. -/
def countSent (udid : JStr) (st : ServerState) : Nat :=
  ((getA udid st.commandQueue).getD []).countP (fun c => c.status == CommandStatus.sent)

/-- Push credentials only after a completed enrollment: every record holding
a push token or push magic has `enrolledAt` stamped and is not `pending`. -/
def pushImpliesEnrolled (reg : Registry) : Prop :=
  ∀ u d, getA u reg = some d → (d.pushToken ≠ none ∨ d.pushMagic ≠ none) →
    d.enrolledAt ≠ none ∧ d.enrollmentStatus ≠ EnrollmentStatus.pending

/-- The `keyRegex` capture that one scalar value renders to. -/
def rawOf : PValue → RawVal
  | .bool b => .boolean b
  | .int n => .content (intRepr n)
  | .str s => .content (escapeXml s)
  | _ => .content []

/-- A scalar leaf in the sense of the round-trip claim, with the string
restrictions the codec imposes: no characters the encoder escapes, and text
that `Number()` does not accept (otherwise the parser coerces it). -/
def ScalarLeaf (v : PValue) : Prop :=
  (∃ b, v = .bool b) ∨ (∃ n, v = .int n) ∨
  (∃ s, v = .str s ∧ (∀ c ∈ s, c ≠ '&' ∧ c ≠ '<' ∧ c ≠ '>') ∧ jsToNumber s = none)

/-- The `<`-initial token shapes occurring in rendered plist output; every
occurrence of `<` in a rendered document starts one of them, and none can
start an occurrence of `<dict>` or `</dict>` beyond the intended ones. -/
def serverToks : List JStr :=
  [("<?".toList), ("<!".toList), ("<p".toList), ("<k".toList), ("</k".toList),
   ("<s".toList), ("</s".toList), ("<i".toList), ("</i".toList),
   ("<t".toList), ("<f".toList)]

/-- Strings decomposable into tokens from `toks` and non-`<` plain
characters; used to locate the first `<dict>` / `</dict>` occurrence. -/
inductive Chunks (toks : List JStr) : JStr → Prop
  | nil : Chunks toks []
  | tok {t s} : t ∈ toks → Chunks toks s → Chunks toks (t ++ s)
  | plain {c s} : c ≠ '<' → Chunks toks s → Chunks toks (c :: s)

example : (((getA ("A1".toList) (runOps (opsTwoPolls.take 4)).commandQueue).getD []).map
    (fun c => (c.id, c.status))) = [(("CMD1".toList), .sent), (("CMD2".toList), .pending)] := rfl
example : ((getNextCommand ("A1".toList) (runOps (opsTwoPolls.take 4)).commandQueue).map
    (fun c => c.id)) = some ("CMD2".toList) := rfl
example : ((getA ("A1".toList) (runOps opsTwoPolls).commandQueue).getD []).countP
    (fun c => c.status == CommandStatus.sent) = 2 := rfl

/-! ## Association-list lemmas -/

theorem getA_setA {α : Type} (k k' : JStr) (v : α) (m : List (JStr × α)) :
    getA k (setA k' v m) = if k' = k then some v else getA k m := by
  induction m with
  | nil => by_cases h : k' = k <;> simp [getA, setA, h]
  | cons kv t ih =>
    obtain ⟨k0, v0⟩ := kv
    by_cases h0 : k0 = k'
    · subst h0
      by_cases h1 : k0 = k
      · subst h1; simp [getA, setA]
      · simp [getA, setA, h1]
    · by_cases h1 : k' = k
      · subst h1
        simp [getA, setA, h0, ih]
      · simp [getA, setA, h0, h1, ih]

theorem setA_eq_append {α : Type} (k : JStr) (v : α) :
    ∀ (m : List (JStr × α)), (∀ kv ∈ m, kv.1 ≠ k) → setA k v m = m ++ [(k, v)] := by
  intro m
  induction m with
  | nil => intro _; rfl
  | cons kv t ih =>
    intro h
    obtain ⟨k0, v0⟩ := kv
    have hk0 : k0 ≠ k := h (k0, v0) (by simp)
    simp [setA, hk0, ih (fun kv hkv => h kv (by simp [hkv]))]

/-! ## `splitFirst` lemmas -/

theorem splitFirst_pos {pat s : JStr} (h : pat.isPrefixOf s = true) :
    splitFirst pat s = some ([], s.drop pat.length) := by
  cases s with
  | nil => simp [splitFirst, h]
  | cons c t => simp [splitFirst, h]

theorem splitFirst_neg {pat : JStr} {c : Char} {s : JStr}
    (h : pat.isPrefixOf (c :: s) = false) :
    splitFirst pat (c :: s) = (splitFirst pat s).map (fun p => (c :: p.1, p.2)) := by
  simp [splitFirst, h]

theorem isPrefixOf_append_self (pat b : JStr) : pat.isPrefixOf (pat ++ b) = true :=
  List.isPrefixOf_iff_prefix.mpr (List.prefix_append pat b)

theorem splitFirst_skip_plain {pt : JStr} (pat : JStr) (hpat : pat = '<' :: pt) :
    ∀ (u v : JStr), (∀ c ∈ u, c ≠ '<') →
      splitFirst pat (u ++ v) = (splitFirst pat v).map (fun p => (u ++ p.1, p.2)) := by
  intro u
  induction u with
  | nil =>
    intro v _
    rw [List.nil_append]
    cases splitFirst pat v <;> rfl
  | cons c u' ih =>
    intro v hu
    have hc : c ≠ '<' := hu c (by simp)
    have hpre : pat.isPrefixOf (c :: (u' ++ v)) = false := by
      subst hpat
      simp only [List.isPrefixOf]
      simp [Ne.symm hc]
    rw [List.cons_append, splitFirst_neg hpre, ih v (fun c hcm => hu c (by simp [hcm]))]
    cases splitFirst pat v <;> simp

theorem chunks_skip {toks : List JStr} {pat pt : JStr} (hpat : pat = '<' :: pt)
    (htoks : ∀ t ∈ toks, (¬ pat <+: t) ∧ (¬ t <+: pat) ∧ (∀ c ∈ t.tail, c ≠ '<')) :
    ∀ {a : JStr}, Chunks toks a → ∀ (b : JStr),
      splitFirst pat (a ++ (pat ++ b)) = some (a, b) := by
  intro a ha
  induction ha with
  | nil =>
    intro b
    rw [List.nil_append, splitFirst_pos (isPrefixOf_append_self pat b), List.drop_left]
  | tok hmem _ ih =>
    rename_i t s _
    intro b
    obtain ⟨hnp, hnt, htail⟩ := htoks t hmem
    obtain ⟨c, u, rfl⟩ : ∃ c u, t = c :: u := by
      cases t with
      | nil => exact absurd List.nil_prefix hnt
      | cons c u => exact ⟨c, u, rfl⟩
    have hpre : pat.isPrefixOf (c :: (u ++ (s ++ (pat ++ b)))) = false := by
      by_contra hcontra
      have hT : pat.isPrefixOf ((c :: u) ++ (s ++ (pat ++ b))) = true := by
        simpa using Bool.of_not_eq_false hcontra
      have h1 : pat <+: ((c :: u) ++ (s ++ (pat ++ b))) := List.isPrefixOf_iff_prefix.mp hT
      have h2 : (c :: u) <+: ((c :: u) ++ (s ++ (pat ++ b))) := List.prefix_append _ _
      rcases List.prefix_or_prefix_of_prefix h1 h2 with h | h
      · exact hnp h
      · exact hnt h
    rw [List.append_assoc, List.cons_append, splitFirst_neg hpre,
        splitFirst_skip_plain pat hpat u _ (fun x hx => htail x hx), ih b]
    simp

  | plain hc _ ih =>
    rename_i c s _
    intro b
    have hpre : pat.isPrefixOf (c :: (s ++ (pat ++ b))) = false := by
      subst hpat
      simp only [List.isPrefixOf]
      simp [Ne.symm hc]
    rw [List.cons_append, splitFirst_neg hpre, ih b]
    simp

/-! ## Character-class lemmas for rendered output -/

theorem digitOf_isDigit {d : Nat} (h : d < 10) : (digitOf d).isDigit = true := by
  interval_cases d <;> decide

theorem natDigitsAux_all_digits :
    ∀ fuel n, n < fuel → ∀ c ∈ natDigitsAux fuel n, c.isDigit = true := by
  intro fuel
  induction fuel with
  | zero => intro n h; omega
  | succ f ih =>
    intro n h c hc
    by_cases h10 : n < 10
    · simp [natDigitsAux, h10] at hc
      subst hc; exact digitOf_isDigit h10
    · simp [natDigitsAux, h10] at hc
      rcases hc with hc | hc
      · exact ih (n / 10) (by omega) c hc
      · subst hc; exact digitOf_isDigit (Nat.mod_lt n (by omega))

theorem natDigitsAux_ne_nil : ∀ fuel n, n < fuel → natDigitsAux fuel n ≠ [] := by
  intro fuel
  induction fuel with
  | zero => intro n h; omega
  | succ f _ =>
    intro n h
    by_cases h10 : n < 10 <;> simp [natDigitsAux, h10]

theorem natDigits_all_digits (n : Nat) : ∀ c ∈ natDigits n, c.isDigit = true :=
  natDigitsAux_all_digits (n + 1) n (by omega)

theorem natDigits_ne_nil (n : Nat) : natDigits n ≠ [] :=
  natDigitsAux_ne_nil (n + 1) n (by omega)

theorem isDigit_ne_lt {c : Char} (h : c.isDigit = true) : c ≠ '<' := by
  intro hc; subst hc; exact absurd h (by decide)

theorem intRepr_no_lt (i : Int) : ∀ c ∈ intRepr i, c ≠ '<' := by
  intro c hc
  by_cases h : i < 0 <;> simp [intRepr, h] at hc
  · rcases hc with hc | hc
    · subst hc; decide
    · exact isDigit_ne_lt (natDigits_all_digits _ c hc)
  · exact isDigit_ne_lt (natDigits_all_digits _ c hc)

theorem escapeXml_no_lt : ∀ (s : JStr), ∀ c ∈ escapeXml s, c ≠ '<' := by
  intro s
  induction s with
  | nil => simp [escapeXml]
  | cons c0 t ih =>
    intro c hc
    simp only [escapeXml, List.mem_append] at hc
    rcases hc with hc | hc
    · by_cases h1 : c0 = '&'
      · simp [h1] at hc
        rcases hc with hc | hc | hc | hc | hc <;> (subst hc; decide)
      · by_cases h2 : c0 = '<'
        · simp [h1, h2] at hc
          rcases hc with hc | hc | hc | hc <;> (subst hc; decide)
        · by_cases h3 : c0 = '>'
          · simp [h1, h2, h3] at hc
            rcases hc with hc | hc | hc | hc <;> (subst hc; decide)
          · simp [h1, h2, h3] at hc
            subst hc; exact h2
    · exact ih c hc

theorem escapeXml_eq_self :
    ∀ (s : JStr), (∀ c ∈ s, c ≠ '&' ∧ c ≠ '<' ∧ c ≠ '>') → escapeXml s = s := by
  intro s
  induction s with
  | nil => intro _; rfl
  | cons c0 t ih =>
    intro h
    obtain ⟨h1, h2, h3⟩ := h c0 (by simp)
    simp [escapeXml, h1, h2, h3, ih (fun c hc => h c (by simp [hc]))]

/-! ## Chunk decompositions of rendered documents -/

theorem chunks_append {toks : List JStr} {a b : JStr}
    (ha : Chunks toks a) (hb : Chunks toks b) : Chunks toks (a ++ b) := by
  induction ha with
  | nil => exact hb
  | tok hmem _ ih => rw [List.append_assoc]; exact Chunks.tok hmem ih
  | plain hc _ ih => rw [List.cons_append]; exact Chunks.plain hc ih

theorem chunks_plain_all {toks : List JStr} :
    ∀ (u : JStr), (∀ c ∈ u, c ≠ '<') → Chunks toks u := by
  intro u
  induction u with
  | nil => intro _; exact Chunks.nil
  | cons c t ih =>
    intro h
    exact Chunks.plain (h c (by simp)) (ih (fun c hc => h c (by simp [hc])))

theorem tok_split_key (X : JStr) :
    ("<key>".toList) ++ X = ("<k".toList) ++ (("ey>".toList) ++ X) := rfl

theorem tok_split_key_close (X : JStr) :
    ("</key>".toList) ++ X = ("</k".toList) ++ (("ey>".toList) ++ X) := rfl

theorem tok_split_string (X : JStr) :
    ("<string>".toList) ++ X = ("<s".toList) ++ (("tring>".toList) ++ X) := rfl

theorem tok_split_string_close (X : JStr) :
    ("</string>".toList) ++ X = ("</s".toList) ++ (("tring>".toList) ++ X) := rfl

theorem tok_split_integer (X : JStr) :
    ("<integer>".toList) ++ X = ("<i".toList) ++ (("nteger>".toList) ++ X) := rfl

theorem tok_split_integer_close (X : JStr) :
    ("</integer>".toList) ++ X = ("</i".toList) ++ (("nteger>".toList) ++ X) := rfl

theorem tok_split_true (X : JStr) :
    ("<true/>".toList) ++ X = ("<t".toList) ++ (("rue/>".toList) ++ X) := rfl

theorem tok_split_false (X : JStr) :
    ("<false/>".toList) ++ X = ("<f".toList) ++ (("alse/>".toList) ++ X) := rfl

theorem chunks_header : Chunks serverToks plistHeader := by
  have h : plistHeader =
      ("<?".toList) ++ (("xml version=\"1.0\" encoding=\"UTF-8\"?>\n".toList) ++
      (("<!".toList) ++
       (("DOCTYPE plist PUBLIC \"-//Apple//DTD PLIST 1.0//EN\" \"http://www.apple.com/DTDs/PropertyList-1.0.dtd\">\n".toList) ++
      (("<p".toList) ++ ("list version=\"1.0\">\n".toList))))) := rfl
  rw [h]
  refine Chunks.tok (by decide) ?_
  refine chunks_append (chunks_plain_all _ (by decide)) ?_
  refine Chunks.tok (by decide) ?_
  refine chunks_append (chunks_plain_all _ (by decide)) ?_
  exact Chunks.tok (by decide) (chunks_plain_all _ (by decide))

theorem chunks_value {v : PValue} (hv : ScalarLeaf v) {s : JStr}
    (hs : Chunks serverToks s) : Chunks serverToks (convertValue v ++ s) := by
  rcases hv with ⟨b, rfl⟩ | ⟨n, rfl⟩ | ⟨s', rfl, hchars, _⟩
  · cases b
    · simp only [convertValue, Bool.false_eq_true, if_false]
      rw [tok_split_false]
      exact Chunks.tok (by decide) (chunks_append (chunks_plain_all _ (by decide)) hs)
    · simp only [convertValue, if_true]
      rw [tok_split_true]
      exact Chunks.tok (by decide) (chunks_append (chunks_plain_all _ (by decide)) hs)
  · simp only [convertValue, List.append_assoc]
    rw [tok_split_integer]
    refine Chunks.tok (by decide) (chunks_append (chunks_plain_all _ (by decide)) ?_)
    refine chunks_append (chunks_plain_all _ (intRepr_no_lt n)) ?_
    rw [tok_split_integer_close]
    exact Chunks.tok (by decide) (chunks_append (chunks_plain_all _ (by decide)) hs)
  · simp only [convertValue, List.append_assoc]
    rw [tok_split_string]
    refine Chunks.tok (by decide) (chunks_append (chunks_plain_all _ (by decide)) ?_)
    refine chunks_append (chunks_plain_all _ (escapeXml_no_lt s')) ?_
    rw [tok_split_string_close]
    exact Chunks.tok (by decide) (chunks_append (chunks_plain_all _ (by decide)) hs)

theorem chunks_convertEntries :
    ∀ (m : Rec), (∀ kv ∈ m, ∀ c ∈ kv.1, c ≠ '<') → (∀ kv ∈ m, ScalarLeaf kv.2) →
      Chunks serverToks (convertEntries m) := by
  intro m
  induction m with
  | nil => intro _ _; exact Chunks.nil
  | cons kv t ih =>
    obtain ⟨k, v⟩ := kv
    intro hk hv
    simp only [convertEntries, List.append_assoc]
    rw [tok_split_key]
    refine Chunks.tok (by decide) (chunks_append (chunks_plain_all _ (by decide)) ?_)
    refine chunks_append (chunks_plain_all k (hk (k, v) (by simp))) ?_
    rw [tok_split_key_close]
    refine Chunks.tok (by decide) (chunks_append (chunks_plain_all _ (by decide)) ?_)
    exact chunks_value (hv (k, v) (by simp))
      (ih (fun kv hkv => hk kv (by simp [hkv])) (fun kv hkv => hv kv (by simp [hkv])))

/-! ## `takeWhile` / `dropWhile` stepping lemmas -/

theorem bnot_beq_true_of_ne {c d : Char} (h : c ≠ d) : (!(c == d)) = true := by
  simp [h]

theorem takeWhile_append_all {p : Char → Bool} :
    ∀ (a b : JStr), (∀ c ∈ a, p c = true) → (a ++ b).takeWhile p = a ++ b.takeWhile p := by
  intro a
  induction a with
  | nil => intro b _; rfl
  | cons c t ih =>
    intro b h
    rw [List.cons_append, List.takeWhile_cons_of_pos (h c (by simp)),
        ih b (fun x hx => h x (by simp [hx])), List.cons_append]

theorem dropWhile_append_all {p : Char → Bool} :
    ∀ (a b : JStr), (∀ c ∈ a, p c = true) → (a ++ b).dropWhile p = b.dropWhile p := by
  intro a
  induction a with
  | nil => intro b _; rfl
  | cons c t ih =>
    intro b h
    rw [List.cons_append, List.dropWhile_cons_of_pos (h c (by simp)),
        ih b (fun x hx => h x (by simp [hx]))]

theorem ne_nil_isEmpty {l : JStr} (h : l ≠ []) : l.isEmpty = false := by
  cases l with
  | nil => exact absurd rfl h
  | cons c t => rfl

/-! ## One `keyRegex` match over one rendered entry -/

theorem matchTagged_shape (tag content tag2 rest : JStr)
    (htag : tag ≠ []) (htagc : ∀ c ∈ tag, c ≠ '>')
    (hcont : ∀ c ∈ content, c ≠ '<')
    (htag2 : tag2 ≠ []) (htag2c : ∀ c ∈ tag2, c ≠ '>') :
    matchTagged ('<' :: (tag ++ ('>' :: (content ++ ('<' :: '/' :: (tag2 ++ ('>' :: rest)))))))
      = some (content, rest) := by
  have ptag : ∀ c ∈ tag, (fun c => !(c == '>')) c = true :=
    fun c hc => bnot_beq_true_of_ne (htagc c hc)
  have ptag2 : ∀ c ∈ tag2, (fun c => !(c == '>')) c = true :=
    fun c hc => bnot_beq_true_of_ne (htag2c c hc)
  have pcont : ∀ c ∈ content, (fun c => !(c == '<')) c = true :=
    fun c hc => bnot_beq_true_of_ne (hcont c hc)
  simp only [matchTagged]
  rw [takeWhile_append_all _ _ ptag, dropWhile_append_all _ _ ptag,
      List.takeWhile_cons_of_neg (by simp), List.dropWhile_cons_of_neg (by simp),
      List.append_nil, ne_nil_isEmpty htag]
  simp only [Bool.false_eq_true, if_false]
  rw [takeWhile_append_all _ _ pcont, dropWhile_append_all _ _ pcont,
      List.takeWhile_cons_of_neg (by simp), List.dropWhile_cons_of_neg (by simp),
      List.append_nil]
  simp only []
  rw [takeWhile_append_all _ _ ptag2, dropWhile_append_all _ _ ptag2,
      List.takeWhile_cons_of_neg (by simp), List.dropWhile_cons_of_neg (by simp),
      List.append_nil, ne_nil_isEmpty htag2]
  simp

theorem matchTagged_integer (n : Int) (rest : JStr) :
    matchTagged (("<integer>".toList) ++ (intRepr n ++ (("</integer>".toList) ++ rest)))
      = some (intRepr n, rest) :=
  matchTagged_shape ("integer".toList) (intRepr n) ("integer".toList) rest
    (by decide) (by decide) (intRepr_no_lt n) (by decide) (by decide)

theorem matchTagged_string (s rest : JStr) :
    matchTagged (("<string>".toList) ++ (escapeXml s ++ (("</string>".toList) ++ rest)))
      = some (escapeXml s, rest) :=
  matchTagged_shape ("string".toList) (escapeXml s) ("string".toList) rest
    (by decide) (by decide) (escapeXml_no_lt s) (by decide) (by decide)

theorem matchTagged_true_none (rest : JStr)
    (hrest : rest = [] ∨ ∃ r', rest = '<' :: 'k' :: r') :
    matchTagged (("<true/>".toList) ++ rest) = none := by
  rcases hrest with rfl | ⟨r', rfl⟩ <;> rfl

theorem matchTagged_false_none (rest : JStr)
    (hrest : rest = [] ∨ ∃ r', rest = '<' :: 'k' :: r') :
    matchTagged (("<false/>".toList) ++ rest) = none := by
  rcases hrest with rfl | ⟨r', rfl⟩ <;> rfl

theorem convertEntries_cons (k : JStr) (v : PValue) (t : Rec) :
    convertEntries ((k, v) :: t) =
      '<' :: 'k' :: 'e' :: 'y' :: '>' ::
        (k ++ ('<' :: '/' :: 'k' :: 'e' :: 'y' :: '>' :: (convertValue v ++ convertEntries t))) := by
  simp [convertEntries, List.append_assoc]

theorem tryMatch_entry (k : JStr) (hk0 : k ≠ []) (hk : ∀ c ∈ k, c ≠ '<')
    (v : PValue) (hv : ScalarLeaf v) (rest : JStr)
    (hrest : rest = [] ∨ ∃ r', rest = '<' :: 'k' :: r') :
    tryMatch ('<' :: 'k' :: 'e' :: 'y' :: '>' ::
        (k ++ ('<' :: '/' :: 'k' :: 'e' :: 'y' :: '>' :: (convertValue v ++ rest))))
      = some (k, rawOf v, rest) := by
  have pk : ∀ c ∈ k, (fun c => !(c == '<')) c = true :=
    fun c hc => bnot_beq_true_of_ne (hk c hc)
  simp only [tryMatch]
  rw [takeWhile_append_all _ _ pk, List.takeWhile_cons_of_neg (by simp), List.append_nil,
      ne_nil_isEmpty hk0, dropWhile_append_all _ _ pk, List.dropWhile_cons_of_neg (by simp)]
  simp only [Bool.false_eq_true, if_false]
  rcases hv with ⟨b, rfl⟩ | ⟨n, rfl⟩ | ⟨s', rfl, hchars, hnum⟩
  · cases b
    · simp only [convertValue, Bool.false_eq_true, if_false]
      rw [show List.dropWhile jsSpace (("<false/>".toList) ++ rest)
            = ("<false/>".toList) ++ rest from List.dropWhile_cons_of_neg (by decide)]
      rw [matchTagged_false_none rest hrest]
      rw [show matchBoolTag (("<false/>".toList) ++ rest) = some (false, rest) from rfl]
      rfl
    · simp only [convertValue, if_true]
      rw [show List.dropWhile jsSpace (("<true/>".toList) ++ rest)
            = ("<true/>".toList) ++ rest from List.dropWhile_cons_of_neg (by decide)]
      rw [matchTagged_true_none rest hrest]
      rw [show matchBoolTag (("<true/>".toList) ++ rest) = some (true, rest) from rfl]
      rfl
  · simp only [convertValue, List.append_assoc]
    rw [show List.dropWhile jsSpace
          (("<integer>".toList) ++ (intRepr n ++ (("</integer>".toList) ++ rest)))
          = ("<integer>".toList) ++ (intRepr n ++ (("</integer>".toList) ++ rest))
        from List.dropWhile_cons_of_neg (by decide)]
    rw [matchTagged_integer n rest]
    rfl
  · simp only [convertValue, List.append_assoc]
    rw [show List.dropWhile jsSpace
          (("<string>".toList) ++ (escapeXml s' ++ (("</string>".toList) ++ rest)))
          = ("<string>".toList) ++ (escapeXml s' ++ (("</string>".toList) ++ rest))
        from List.dropWhile_cons_of_neg (by decide)]
    rw [matchTagged_string s' rest]
    rfl

theorem scanKeys_convertEntries :
    ∀ (m : Rec) (fuel : Nat),
      (∀ kv ∈ m, kv.1 ≠ [] ∧ ∀ c ∈ kv.1, c ≠ '<') →
      (∀ kv ∈ m, ScalarLeaf kv.2) →
      (convertEntries m).length ≤ fuel →
      scanKeys fuel (convertEntries m) = m.map (fun kv => (kv.1, rawOf kv.2)) := by
  intro m
  induction m with
  | nil =>
    intro fuel _ _ _
    cases fuel <;> rfl
  | cons kv t ih =>
    obtain ⟨k, v⟩ := kv
    intro fuel hk hv hlen
    obtain ⟨hk0, hkc⟩ := hk (k, v) (by simp)
    rw [convertEntries_cons] at hlen ⊢
    cases fuel with
    | zero => simp at hlen
    | succ f =>
      have hrest : convertEntries t = [] ∨ ∃ r', convertEntries t = '<' :: 'k' :: r' := by
        match t with
        | [] => exact Or.inl rfl
        | (k', v') :: t' =>
          right
          rw [convertEntries_cons]
          exact ⟨_, rfl⟩
      simp only [scanKeys]
      rw [tryMatch_entry k hk0 hkc v (hv (k, v) (by simp)) (convertEntries t) hrest]
      simp only []
      rw [ih f (fun kv hkv => hk kv (by simp [hkv])) (fun kv hkv => hv kv (by simp [hkv]))
          (by simp [List.length_append] at hlen; omega)]
      simp

/-! ## Decimal digits round-trip through `Number()` -/

theorem digitOf_toNat {d : Nat} (h : d < 10) : (digitOf d).toNat - 48 = d := by
  interval_cases d <;> decide

theorem digitsToNat_append (a : JStr) (c : Char) :
    digitsToNat (a ++ [c]) = digitsToNat a * 10 + (c.toNat - 48) := by
  simp [digitsToNat, List.foldl_append]

theorem digitsToNat_natDigitsAux :
    ∀ fuel n, n < fuel → digitsToNat (natDigitsAux fuel n) = n := by
  intro fuel
  induction fuel with
  | zero => intro n h; omega
  | succ f ih =>
    intro n h
    by_cases h10 : n < 10
    · simp only [natDigitsAux, h10, if_true]
      have : digitsToNat [digitOf n] = (digitOf n).toNat - 48 := by
        simp [digitsToNat]
      rw [this, digitOf_toNat h10]
    · simp only [natDigitsAux, h10, if_false]
      rw [digitsToNat_append, ih (n / 10) (by omega),
          digitOf_toNat (Nat.mod_lt n (by omega))]
      omega

theorem digitsToNat_natDigits (n : Nat) : digitsToNat (natDigits n) = n :=
  digitsToNat_natDigitsAux (n + 1) n (by omega)

theorem jsSpace_isDigit_false (c : Char) (h : jsSpace c = true) : c.isDigit = false := by
  simp only [jsSpace, Bool.or_eq_true, beq_iff_eq] at h
  repeat' rcases h with h | h
  all_goals decide

theorem isDigit_jsSpace_false {c : Char} (h : c.isDigit = true) : jsSpace c = false := by
  cases hs : jsSpace c with
  | false => rfl
  | true => rw [jsSpace_isDigit_false c hs] at h; exact absurd h (by decide)

theorem dropWhile_eq_self_of_all {p : Char → Bool} (s : JStr)
    (h : ∀ c ∈ s, p c = false) : s.dropWhile p = s := by
  cases s with
  | nil => rfl
  | cons c t => exact List.dropWhile_cons_of_neg (by simp [h c (by simp)])

theorem trimJs_eq_self (s : JStr) (h : ∀ c ∈ s, jsSpace c = false) : trimJs s = s := by
  unfold trimJs
  rw [dropWhile_eq_self_of_all s h,
      dropWhile_eq_self_of_all s.reverse (fun c hc => h c (List.mem_reverse.mp hc)),
      List.reverse_reverse]

theorem takeWhile_eq_self_of_all {p : Char → Bool} :
    ∀ (s : JStr), (∀ c ∈ s, p c = true) → s.takeWhile p = s := by
  intro s
  induction s with
  | nil => intro _; rfl
  | cons c t ih =>
    intro h
    rw [List.takeWhile_cons_of_pos (h c (by simp)), ih (fun x hx => h x (by simp [hx]))]

theorem dropWhile_eq_nil_of_all {p : Char → Bool} :
    ∀ (s : JStr), (∀ c ∈ s, p c = true) → s.dropWhile p = [] := by
  intro s
  induction s with
  | nil => intro _; rfl
  | cons c t ih =>
    intro h
    rw [List.dropWhile_cons_of_pos (h c (by simp)), ih (fun x hx => h x (by simp [hx]))]

theorem decLit_digits (u : JStr) (h0 : u ≠ []) (h : ∀ c ∈ u, c.isDigit = true) :
    decLit u = true := by
  unfold decLit
  rw [takeWhile_eq_self_of_all u h, dropWhile_eq_nil_of_all u h]
  simp [ne_nil_isEmpty h0]

theorem strNumeric_all_digits (u : JStr) (h0 : u ≠ []) (hd : ∀ c ∈ u, c.isDigit = true) :
    strNumeric u = true := by
  cases u with
  | nil => exact absurd rfl h0
  | cons c cs =>
    have hc := hd c (by simp)
    have hplus : c ≠ '+' := fun heq => by rw [heq] at hc; exact absurd hc (by decide)
    have hminus : c ≠ '-' := fun heq => by rw [heq] at hc; exact absurd hc (by decide)
    have h1 : unsignedNumeric (c :: cs) = true := by
      simp [unsignedNumeric, decLit_digits (c :: cs) h0 hd]
    simp only [strNumeric]
    rw [if_neg (by rintro (h | h); exact hplus h; exact hminus h), h1, Bool.or_true]

theorem jsToNumber_intRepr (i : Int) : jsToNumber (intRepr i) = some (.int i) := by
  by_cases hneg : i < 0
  · simp only [intRepr, hneg, if_true]
    have hd : ∀ c ∈ natDigits i.natAbs, c.isDigit = true := natDigits_all_digits _
    have hsp : ∀ c ∈ ('-' :: natDigits i.natAbs), jsSpace c = false := by
      intro c hc
      rcases List.mem_cons.mp hc with rfl | hc
      · decide
      · exact isDigit_jsSpace_false (hd c hc)
    unfold jsToNumber
    rw [trimJs_eq_self _ hsp]
    dsimp only
    have hsn : strNumeric ('-' :: natDigits i.natAbs) = true := by
      simp only [strNumeric]
      rw [if_pos (by simp),
          show unsignedNumeric (natDigits i.natAbs) = true from by
            simp [unsignedNumeric, decLit_digits _ (natDigits_ne_nil _) hd],
          Bool.or_true]
    rw [show (('-' :: natDigits i.natAbs).isEmpty) = false from rfl]
    simp only [Bool.false_eq_true, if_false, hsn, if_true]
    simp only [jsIntOf, if_pos rfl]
    rw [ne_nil_isEmpty (natDigits_ne_nil _),
        show (natDigits i.natAbs).all Char.isDigit = true from List.all_eq_true.mpr hd]
    simp only [Bool.not_false, Bool.true_and, if_true]
    rw [digitsToNat_natDigits]
    have : -((i.natAbs : Nat) : Int) = i := by omega
    rw [this]
  · simp only [intRepr, hneg, if_false]
    have h0 := natDigits_ne_nil i.toNat
    have hd : ∀ c ∈ natDigits i.toNat, c.isDigit = true := natDigits_all_digits _
    have hsp : ∀ c ∈ natDigits i.toNat, jsSpace c = false :=
      fun c hc => isDigit_jsSpace_false (hd c hc)
    unfold jsToNumber
    rw [trimJs_eq_self _ hsp]
    dsimp only
    rw [ne_nil_isEmpty h0]
    simp only [Bool.false_eq_true, if_false]
    rw [strNumeric_all_digits _ h0 hd]
    simp only [if_true]
    obtain ⟨c, cs, hu⟩ : ∃ c cs, natDigits i.toNat = c :: cs := by
      cases hcase : natDigits i.toNat with
      | nil => exact absurd hcase h0
      | cons c cs => exact ⟨c, cs, rfl⟩
    rw [hu] at hd ⊢
    have hc := hd c (by simp)
    simp only [jsIntOf]
    rw [if_neg (fun heq => by rw [heq] at hc; exact absurd hc (by decide)),
        if_neg (fun heq => by rw [heq] at hc; exact absurd hc (by decide)),
        if_pos (List.all_eq_true.mpr hd)]
    rw [← hu, digitsToNat_natDigits]
    have : ((i.toNat : Nat) : Int) = i := by omega
    rw [this]

/-! ## Reassembling the parsed record -/

theorem parsePlist_fold :
    ∀ (m : Rec) (acc : Rec),
      (∀ kv ∈ m, ScalarLeaf kv.2) →
      (m.map Prod.fst).Nodup →
      (∀ kv ∈ m, ∀ kv' ∈ acc, kv'.1 ≠ kv.1) →
      (m.map (fun kv => (kv.1, rawOf kv.2))).foldl
        (fun acc kv =>
          match kv.2 with
          | RawVal.boolean b => setA kv.1 (.bool b) acc
          | RawVal.content s => setA kv.1 ((jsToNumber s).getD (.str s)) acc) acc
        = acc ++ m := by
  intro m
  induction m with
  | nil => intro acc _ _ _; simp
  | cons kv t ih =>
    obtain ⟨k, v⟩ := kv
    intro acc hv hnodup hdisj
    have hk_not : k ∉ t.map Prod.fst := by
      simp only [List.map_cons, List.nodup_cons] at hnodup
      exact hnodup.1
    have ht_nodup : (t.map Prod.fst).Nodup := by
      simp only [List.map_cons, List.nodup_cons] at hnodup
      exact hnodup.2
    simp only [List.map_cons, List.foldl_cons]
    have hstep : (match ((k, rawOf v) : JStr × RawVal).2 with
        | RawVal.boolean b => setA (k, rawOf v).1 (PValue.bool b) acc
        | RawVal.content s => setA (k, rawOf v).1 ((jsToNumber s).getD (.str s)) acc)
        = setA k v acc := by
      rcases hv (k, v) (by simp) with ⟨b, rfl⟩ | ⟨n, rfl⟩ | ⟨s, rfl, hchars, hnum⟩
      · rfl
      · simp only [rawOf]
        rw [jsToNumber_intRepr]
        rfl
      · simp only [rawOf]
        rw [escapeXml_eq_self s hchars, hnum]
        rfl
    rw [hstep, setA_eq_append k v acc (fun kv' h' => hdisj (k, v) (by simp) kv' h')]
    have hdisj' : ∀ kv ∈ t, ∀ kv' ∈ acc ++ [(k, v)], kv'.1 ≠ kv.1 := by
      intro kv hkv kv' hkv'
      rcases List.mem_append.mp hkv' with h' | h'
      · exact hdisj kv (List.mem_cons_of_mem _ hkv) kv' h'
      · have hkv'' : kv' = (k, v) := by simpa using h'
        subst hkv''
        intro heq
        have hmem : kv.1 ∈ t.map Prod.fst := List.mem_map_of_mem Prod.fst hkv
        rw [← heq] at hmem
        exact hk_not hmem
    rw [ih (acc ++ [(k, v)]) (fun kv hkv => hv kv (by simp [hkv])) ht_nodup hdisj']
    simp

/-- Round-trip of the codec on flat scalar records: rendering with `toPlist`
and re-reading with `parsePlist` restores exactly the entries, provided the
keys are nonempty, `<`-free and distinct, and every leaf satisfies
`ScalarLeaf`. -/
theorem parsePlist_toPlist_of_scalars (m : Rec)
    (hkeys : (m.map Prod.fst).Nodup)
    (hk : ∀ kv ∈ m, kv.1 ≠ [] ∧ ∀ c ∈ kv.1, c ≠ '<')
    (hv : ∀ kv ∈ m, ScalarLeaf kv.2) :
    parsePlist (toPlist m) = m := by
  have hreassoc : toPlist m
      = plistHeader ++ (("<dict>".toList) ++
          (convertEntries m ++ (("</dict>".toList) ++ ("\n</plist>".toList)))) := by
    simp [toPlist, convertValue, List.append_assoc]
  have htoks1 : ∀ t ∈ serverToks,
      ¬ ("<dict>".toList) <+: t ∧ ¬ t <+: ("<dict>".toList) ∧ ∀ c ∈ t.tail, c ≠ '<' := by
    decide
  have htoks2 : ∀ t ∈ serverToks,
      ¬ ("</dict>".toList) <+: t ∧ ¬ t <+: ("</dict>".toList) ∧ ∀ c ∈ t.tail, c ≠ '<' := by
    decide
  unfold parsePlist
  rw [hreassoc,
      chunks_skip (show ("<dict>".toList) = '<' :: ("dict>".toList) from rfl) htoks1
        chunks_header]
  simp only []
  rw [chunks_skip (show ("</dict>".toList) = '<' :: ("/dict>".toList) from rfl) htoks2
        (chunks_convertEntries m (fun kv hkv => (hk kv hkv).2) hv)]
  simp only []
  rw [scanKeys_convertEntries m _ hk hv (le_refl _)]
  have := parsePlist_fold m [] hv hkeys (by intro kv _ kv' h'; simp at h')
  simpa using this

/-! ## Counting `sent` commands across one operation -/

theorem countP_set_le {α : Type} (p : α → Bool) :
    ∀ (q : List α) (i : Nat) (c : α), (q.set i c).countP p ≤ q.countP p + 1 := by
  intro q
  induction q with
  | nil => intro i c; simp
  | cons a t ih =>
    intro i c
    cases i with
    | zero =>
      simp only [List.set_cons_zero, List.countP_cons]
      by_cases hc : p c <;> by_cases ha : p a <;> simp [hc, ha] <;> omega
    | succ j =>
      simp only [List.set_cons_succ, List.countP_cons]
      by_cases ha : p a <;> simp [ha] <;> exact ih j c

theorem countP_set_le_of_neg {α : Type} (p : α → Bool) :
    ∀ (q : List α) (i : Nat) (c : α), p c = false → (q.set i c).countP p ≤ q.countP p := by
  intro q
  induction q with
  | nil => intro i c _; simp
  | cons a t ih =>
    intro i c hc
    cases i with
    | zero =>
      simp only [List.set_cons_zero, List.countP_cons]
      by_cases ha : p a <;> simp [hc, ha] <;> omega
    | succ j =>
      simp only [List.set_cons_succ, List.countP_cons]
      by_cases ha : p a <;> simp [ha] <;> exact ih j c hc

theorem markNextSent_countP_le (now : Nat) (udid u : JStr) (cq : CommandQueue) :
    ((getA u (markNextSent now udid cq)).getD []).countP
        (fun c => c.status == CommandStatus.sent)
      ≤ ((getA u cq).getD []).countP (fun c => c.status == CommandStatus.sent) + 1 := by
  unfold markNextSent
  dsimp only
  cases hidx : ((getA udid cq).getD []).findIdx? (fun c => c.status == CommandStatus.pending) with
  | none => simp only []; exact Nat.le_succ _
  | some i =>
    simp only []
    cases hget : ((getA udid cq).getD []).get? i with
    | none => simp only []; exact Nat.le_succ _
    | some c =>
      simp only []
      rw [getA_setA]
      by_cases hu : udid = u
      · subst hu
        simp only [if_pos rfl, Option.getD_some]
        exact countP_set_le _ _ _ _
      · rw [if_neg hu]
        exact Nat.le_succ _

theorem processCommandResponse_countP_le (now : Nat) (udid u : JStr) (rep : Rec)
    (cq : CommandQueue) :
    ((getA u (processCommandResponse now udid rep cq)).getD []).countP
        (fun c => c.status == CommandStatus.sent)
      ≤ ((getA u cq).getD []).countP (fun c => c.status == CommandStatus.sent) := by
  unfold processCommandResponse
  dsimp only
  cases hidx : ((getA udid cq).getD []).findIdx?
      (fun c => isStrV (getA ("CommandUUID".toList) rep) c.id) with
  | none => simp only []; exact Nat.le_refl _
  | some i =>
    simp only []
    cases hget : ((getA udid cq).getD []).get? i with
    | none => simp only []; exact Nat.le_refl _
    | some c =>
      simp only []
      rw [getA_setA]
      by_cases hu : udid = u
      · subst hu
        rw [if_pos rfl]
        simp only [Option.getD_some]
        exact countP_set_le_of_neg _ _ _ _ (by rfl)
      · rw [if_neg hu]

theorem enqueue_countP_eq (udid u : JStr) (cq : CommandQueue) (c : MDMCommand)
    (hc : c.status = CommandStatus.pending) :
    ((getA u (setA udid ((getA udid cq).getD [] ++ [c]) cq)).getD []).countP
        (fun c => c.status == CommandStatus.sent)
      = ((getA u cq).getD []).countP (fun c => c.status == CommandStatus.sent) := by
  rw [getA_setA]
  by_cases hu : udid = u
  · subst hu
    rw [if_pos rfl]
    simp only [Option.getD_some, List.countP_append]
    have : List.countP (fun c => c.status == CommandStatus.sent) [c] = 0 := by
      simp [List.countP_cons, hc]
    omega
  · rw [if_neg hu]

theorem deliverNext_countSent_le (now : Nat) (u udid : JStr) (st : ServerState) :
    countSent udid (deliverNext now u st).1 ≤ countSent udid st + 1 := by
  unfold deliverNext
  cases getNextCommand u st.commandQueue with
  | none => exact Nat.le_succ _
  | some c =>
    simp only []
    exact markNextSent_countP_le now u udid st.commandQueue

theorem deliverNext_devices (now : Nat) (u : JStr) (st : ServerState) :
    (deliverNext now u st).1.devices = st.devices := by
  unfold deliverNext
  cases getNextCommand u st.commandQueue <;> rfl

theorem apiQueueCommand_devices (f : JStr) (n : Nat) (u ct : JStr) (pl : Option Rec)
    (st : ServerState) : (apiQueueCommand f n u ct pl st).1.devices = st.devices := by
  unfold apiQueueCommand
  cases getA u st.devices <;> rfl

theorem putMdm_devices (now : Nat) (rep : Rec) (st : ServerState) :
    (putMdm now rep st).1.devices = st.devices ∨
    ∃ u d, getA u st.devices = some d ∧
      (putMdm now rep st).1.devices = setA u { d with lastCheckIn := some now } st.devices := by
  unfold putMdm
  cases hu : repStrField ("UDID".toList) rep with
  | none => exact Or.inl rfl
  | some u =>
    simp only []
    cases hd : getA u st.devices with
    | none => exact Or.inl rfl
    | some d =>
      simp only []
      right
      refine ⟨u, d, hd, ?_⟩
      by_cases h1 : isStrV (getA ("Status".toList) rep) ("Idle".toList) = true
      · rw [if_pos h1, deliverNext_devices]
      · rw [if_neg h1]
        by_cases h2 : isStrV (getA ("Status".toList) rep) ("Acknowledged".toList) = true
        · rw [if_pos h2, deliverNext_devices]
        · rw [if_neg h2]

theorem pushInv_step (op : ServerOp) (st : ServerState)
    (h : pushImpliesEnrolled st.devices) : pushImpliesEnrolled (stepOp op st).devices := by
  cases op with
  | queueCommand f n u ct pl =>
    simp only [stepOp]
    rw [apiQueueCommand_devices]
    exact h
  | queryDevice f n u qs => exact h
  | lockDevice f n u msg ph => exact h
  | mdm n rep =>
    simp only [stepOp]
    rcases putMdm_devices n rep st with heq | ⟨u, d, hget, heq⟩
    · rw [heq]; exact h
    · rw [heq]
      intro u' d' hget' hpush
      rw [getA_setA] at hget'
      by_cases hu : u = u'
      · rw [if_pos hu] at hget'
        injection hget' with hd'
        subst hd'
        exact h u d hget hpush
      · rw [if_neg hu] at hget'
        exact h u' d' hget' hpush
  | checkin f n m =>
    simp only [stepOp]
    unfold putCheckin
    by_cases hA : m.MessageType = ("Authenticate".toList)
    · rw [if_pos hA]
      intro u d hget hpush
      unfold handleAuthenticate at hget
      simp only [] at hget
      rw [getA_setA] at hget
      by_cases hu : m.UDID = u
      · rw [if_pos hu] at hget
        injection hget with hd'
        subst hd'
        simp [mkAuthDevice] at hpush
      · rw [if_neg hu] at hget
        exact h u d hget hpush
    · rw [if_neg hA]
      by_cases hT : m.MessageType = ("TokenUpdate".toList)
      · rw [if_pos hT]
        intro u d hget hpush
        unfold handleTokenUpdate at hget
        cases hd0 : getA m.UDID st.devices with
        | none =>
          rw [hd0] at hget
          simp only [] at hget
          exact h u d hget hpush
        | some d0 =>
          rw [hd0] at hget
          simp only [] at hget
          rw [getA_setA] at hget
          by_cases hu : m.UDID = u
          · rw [if_pos hu] at hget
            injection hget with hd'
            subst hd'
            exact ⟨by simp, by simp⟩
          · rw [if_neg hu] at hget
            exact h u d hget hpush
      · rw [if_neg hT]
        by_cases hC : m.MessageType = ("CheckOut".toList)
        · rw [if_pos hC]
          intro u d hget hpush
          unfold handleCheckOut at hget
          cases hd0 : getA m.UDID st.devices with
          | none =>
            rw [hd0] at hget
            simp only [] at hget
            exact h u d hget hpush
          | some d0 =>
            rw [hd0] at hget
            simp only [] at hget
            rw [getA_setA] at hget
            by_cases hu : m.UDID = u
            · rw [if_pos hu] at hget
              injection hget with hd'
              subst hd'
              exact ⟨(h m.UDID d0 hd0 hpush).1, by simp⟩
            · rw [if_neg hu] at hget
              exact h u d hget hpush
        · rw [if_neg hC]
          exact h

theorem pushInv_runAux :
    ∀ (ops : List ServerOp) (st : ServerState), pushImpliesEnrolled st.devices →
      pushImpliesEnrolled (ops.foldl (fun st op => stepOp op st) st).devices := by
  intro ops
  induction ops with
  | nil => intro st h; exact h
  | cons op t ih =>
    intro st h
    exact ih (stepOp op st) (pushInv_step op st h)

/-! ## Claim theorems -/

/-- C1 (counterexample): after authenticating `A1`, enqueueing `CMD1` then
`CMD2` and one `Idle` poll, `CMD1` is in `sent` state and unresolved, yet
`getNextCommand` returns `CMD2` — so the next-command selection does return
a later command while an earlier one is still `sent`, contradicting the
claim that a `sent` but unresolved command blocks later delivery. -/
theorem C1_counterexample :
    (((getA ("A1".toList) (runOps (opsTwoPolls.take 4)).commandQueue).getD []).map
        (fun c => (c.id, c.status))
      = [(("CMD1".toList), CommandStatus.sent), (("CMD2".toList), CommandStatus.pending)])
    ∧ ((getNextCommand ("A1".toList) (runOps (opsTwoPolls.take 4)).commandQueue).map
        (fun c => c.id) = some ("CMD2".toList)) :=
  ⟨rfl, rfl⟩

/-- C1 (amended): the next-command selection is oldest-pending-first — it
never returns C2 while an earlier C1 is still `pending`; but an earlier
command in `sent` state does not block C2 (`getNextCommand` skips it). -/
theorem C1_amended (udid : JStr) (cq : CommandQueue) (l1 l2 l3 : List MDMCommand)
    (c1 c2 c : MDMCommand)
    (hq : getA udid cq = some (l1 ++ c1 :: l2 ++ c2 :: l3))
    (hc1 : c1.status = CommandStatus.pending)
    (hids : ∀ c' ∈ l1, c'.id ≠ c2.id)
    (hid1 : c1.id ≠ c2.id)
    (hfind : getNextCommand udid cq = some c) :
    c.id ≠ c2.id := by
  unfold getNextCommand at hfind
  rw [hq] at hfind
  simp only [Option.getD_some] at hfind
  rw [List.find?_append, List.find?_append,
      List.find?_cons_of_pos _ (by simp [hc1])] at hfind
  cases hfl : l1.find? (fun c => c.status == CommandStatus.pending) with
  | some c' =>
    rw [hfl] at hfind
    simp only [Option.or_some] at hfind
    have hmem := List.mem_of_find?_eq_some hfl
    injection hfind with hcc
    subst hcc
    exact hids c' hmem
  | none =>
    rw [hfl] at hfind
    simp only [Option.or_some, Option.none_or] at hfind
    injection hfind with hcc
    subst hcc
    exact hid1

/-- C1 (amended) witness: with queue `[CMD1 pending, CMD2 pending]`, the
selection returns a command whose id differs from `CMD2`. -/
theorem C1_amended_witness : c1pendingA1.id ≠ c2pendingA1.id := by
  refine C1_amended ("A1".toList) [(("A1".toList), [c1pendingA1, c2pendingA1])] [] [] []
    c1pendingA1 c2pendingA1 c1pendingA1 rfl rfl ?_ ?_ rfl
  · intro c' hc'
    simp at hc'
  · decide

/-- C2 (counterexample): after two `Idle` polls with no acknowledgment in
between, device `A1` has two commands simultaneously in `sent` state —
refuting the single-flight invariant. -/
theorem C2_counterexample : countSent ("A1".toList) (runOps opsTwoPolls) = 2 := rfl

/-- C2 (amended): each single server operation moves at most one command of
a device into `sent` state: the `sent` count grows by at most one per
operation.  (Since an unresolved `sent` command does not block delivery,
repeated polls can accumulate several `sent` commands.) -/
theorem C2_amended (op : ServerOp) (st : ServerState) (udid : JStr) :
    countSent udid (stepOp op st) ≤ countSent udid st + 1 := by
  cases op with
  | checkin f n m => exact Nat.le_succ _
  | queueCommand f n u ct pl =>
    simp only [stepOp]
    unfold apiQueueCommand
    cases hd : getA u st.devices with
    | none => exact Nat.le_succ _
    | some d =>
      simp only []
      exact Nat.le_succ_of_le (Nat.le_of_eq (enqueue_countP_eq u udid st.commandQueue _ rfl))
  | queryDevice f n u qs =>
    simp only [stepOp]
    unfold apiQueryDevice
    exact Nat.le_succ_of_le (Nat.le_of_eq (enqueue_countP_eq u udid st.commandQueue _ rfl))
  | lockDevice f n u msg ph =>
    simp only [stepOp]
    unfold apiLockDevice
    exact Nat.le_succ_of_le (Nat.le_of_eq (enqueue_countP_eq u udid st.commandQueue _ rfl))
  | mdm n rep =>
    simp only [stepOp]
    unfold putMdm
    cases hu : repStrField ("UDID".toList) rep with
    | none => exact Nat.le_succ _
    | some u =>
      simp only []
      cases hd : getA u st.devices with
      | none => exact Nat.le_succ _
      | some d =>
        simp only []
        by_cases h1 : isStrV (getA ("Status".toList) rep) ("Idle".toList) = true
        · rw [if_pos h1]
          exact deliverNext_countSent_le n u udid _
        · rw [if_neg h1]
          by_cases h2 : isStrV (getA ("Status".toList) rep) ("Acknowledged".toList) = true
          · rw [if_pos h2]
            exact Nat.le_trans (deliverNext_countSent_le n u udid _)
              (Nat.add_le_add_right (processCommandResponse_countP_le n u udid rep st.commandQueue) 1)
          · rw [if_neg h2]
            exact Nat.le_succ _

/-- C3 (counterexample): the record `{K: "42"}` has only scalar leaves, yet
`parsePlist (toPlist ·)` does not reproduce it — the numeric-looking string
leaf comes back as the integer `42`. -/
theorem C3_counterexample :
    parsePlist (toPlist m42) ≠ m42
    ∧ parsePlist (toPlist m42) = [(("K".toList), PValue.int 42)] := by
  constructor
  · intro h
    have h2 : parsePlist (toPlist m42) = [(("K".toList), PValue.int 42)] := rfl
    rw [h2] at h
    simp [m42] at h
  · rfl

/-- C3 (amended): decoding the encoding reproduces exactly the entries for
every flat record of scalar leaves whose keys are nonempty, `<`-free and
distinct, and whose string leaves contain none of `&`, `<`, `>` and are not
accepted by `Number()` (in particular are nonempty and not numeric text) —
the escaping and the numeric coercion of the parser make these restrictions
necessary. -/
theorem C3_amended (m : Rec)
    (hkeys : (m.map Prod.fst).Nodup)
    (hk : ∀ kv ∈ m, kv.1 ≠ [] ∧ ∀ c ∈ kv.1, c ≠ '<')
    (hv : ∀ kv ∈ m, ScalarLeaf kv.2) :
    parsePlist (toPlist m) = m :=
  parsePlist_toPlist_of_scalars m hkeys hk hv

/-- C3 (amended) witness: a three-entry record with a string, an integer
and a boolean leaf round-trips. -/
theorem C3_amended_witness :
    parsePlist (toPlist [(("K".toList), PValue.str ("hi".toList)),
        (("N".toList), PValue.int 5), (("B".toList), PValue.bool true)])
      = [(("K".toList), PValue.str ("hi".toList)),
         (("N".toList), PValue.int 5), (("B".toList), PValue.bool true)] := by
  refine C3_amended _ (by decide) (by decide) ?_
  intro kv hkv
  simp only [List.mem_cons, List.not_mem_nil, or_false] at hkv
  rcases hkv with rfl | rfl | rfl
  · exact Or.inr (Or.inr ⟨("hi".toList), rfl, by decide, rfl⟩)
  · exact Or.inr (Or.inl ⟨5, rfl⟩)
  · exact Or.inl ⟨true, rfl⟩

/-- C4 (counterexample): re-authenticating the already-enrolled `A1` does
not retain its enrollment state and push credentials — the record is
rebuilt from scratch: the push token goes from present to absent and the
state resets to `pending`. -/
theorem C4_counterexample :
    ((getA ("A1".toList) [(("A1".toList), devEnrolledA1)]).map (fun d => d.pushToken)
      = some (some ("tok123".toList)))
    ∧ ((getA ("A1".toList)
        (handleAuthenticate ("uuid-9".toList) msgAuthA1 [(("A1".toList), devEnrolledA1)]).1).map
        (fun d => (d.pushToken, d.pushMagic, d.enrollmentStatus, d.enrolledAt))
      = some (none, none, EnrollmentStatus.pending, none)) :=
  ⟨rfl, rfl⟩

/-- C4 (amended): `handleAuthenticate` replaces the whole record at the
message's identifier with a freshly built one — mutable attributes come
from the message, enrollment state resets to `pending`, push credentials
and timestamps are cleared, a fresh internal id is assigned — while records
of every other identifier are untouched, and the response is the empty
acknowledgment. -/
theorem C4_amended (freshId : JStr) (m : CheckInMessage) (reg : Registry) (u : JStr) :
    (u = m.UDID → getA u (handleAuthenticate freshId m reg).1
      = some (mkAuthDevice freshId m))
    ∧ (u ≠ m.UDID → getA u (handleAuthenticate freshId m reg).1 = getA u reg)
    ∧ (handleAuthenticate freshId m reg).2 = emptyAck := by
  refine ⟨?_, ?_, rfl⟩
  · intro h
    unfold handleAuthenticate
    simp only []
    rw [getA_setA, if_pos h.symm]
  · intro h
    unfold handleAuthenticate
    simp only []
    rw [getA_setA, if_neg (fun heq => h heq.symm)]

/-- C4 (amended) witness: on the enrolled registry, `A1` gets the fresh
record and an unrelated identifier is untouched. -/
theorem C4_amended_witness :
    getA ("A1".toList)
        (handleAuthenticate ("uuid-9".toList) msgAuthA1 [(("A1".toList), devEnrolledA1)]).1
      = some (mkAuthDevice ("uuid-9".toList) msgAuthA1)
    ∧ getA ("B2".toList)
        (handleAuthenticate ("uuid-9".toList) msgAuthA1 [(("A1".toList), devEnrolledA1)]).1
      = getA ("B2".toList) [(("A1".toList), devEnrolledA1)] :=
  ⟨(C4_amended ("uuid-9".toList) msgAuthA1 [(("A1".toList), devEnrolledA1)] ("A1".toList)).1 rfl,
   (C4_amended ("uuid-9".toList) msgAuthA1 [(("A1".toList), devEnrolledA1)] ("B2".toList)).2.1
     (by decide)⟩

/-- C5 (counterexample): a `TokenUpdate` for the never-authenticated `X9`
does not create any record — afterwards the registry still has no entry for
`X9`, let alone an `enrolled` one with the supplied push credentials. -/
theorem C5_counterexample :
    (handleTokenUpdate 5 msgTokNew ([] : Registry)).1 = []
    ∧ getA ("X9".toList) (handleTokenUpdate 5 msgTokNew ([] : Registry)).1 = none :=
  ⟨rfl, rfl⟩

/-- C5 (amended): a `TokenUpdate` whose identifier has no registry record is
silently ignored — the registry is unchanged and the empty acknowledgment is
still returned. -/
theorem C5_amended (now : Nat) (m : CheckInMessage) (reg : Registry)
    (h : getA m.UDID reg = none) :
    handleTokenUpdate now m reg = (reg, emptyAck) := by
  unfold handleTokenUpdate
  rw [h]

/-- C5 (amended) witness. -/
theorem C5_amended_witness :
    handleTokenUpdate 5 msgTokNew ([] : Registry) = ([], emptyAck) :=
  C5_amended 5 msgTokNew [] rfl

/-- C6 (counterexample): resolving the `sent` command `CMD1` with a device
response whose status is `Error` (success flag false) still transitions it
to `completed` with no error message — never to `failed`. -/
theorem C6_counterexample :
    ((getA ("A1".toList)
        (processCommandResponse 9 ("A1".toList) repErrA1
          [(("A1".toList), [c1sentA1])])).getD []).map (fun c => (c.status, c.errorMessage))
      = [(CommandStatus.completed, none)] := rfl

/-- C6 (amended): resolving a command — the first whose id strictly equals
the response's `CommandUUID` — always transitions it to `completed`,
stamping `completedAt` and storing the whole response record, regardless of
any success/failure indication in the response; every other queue entry is
untouched and no error message is ever stored. -/
theorem C6_amended (now : Nat) (udid : JStr) (rep : Rec) (cq : CommandQueue)
    (q : List MDMCommand) (i : Nat) (c : MDMCommand)
    (hq : getA udid cq = some q)
    (hidx : q.findIdx? (fun c => isStrV (getA ("CommandUUID".toList) rep) c.id) = some i)
    (hget : q.get? i = some c) :
    getA udid (processCommandResponse now udid rep cq)
      = some (q.set i { c with status := .completed, completedAt := some now,
                               response := some rep })
    ∧ ∀ j, j ≠ i →
        (q.set i { c with status := .completed, completedAt := some now,
                          response := some rep }).get? j = q.get? j := by
  constructor
  · unfold processCommandResponse
    rw [hq]
    simp only [Option.getD_some]
    rw [hidx]
    simp only []
    rw [hget]
    simp only []
    rw [getA_setA, if_pos rfl]
  · intro j hj
    exact List.get?_set_ne _ _ (fun heq => hj heq.symm)

/-- C6 (amended) witness: resolving `CMD1` in the two-command queue yields
the completed record in place. -/
theorem C6_amended_witness :
    getA ("A1".toList)
        (processCommandResponse 9 ("A1".toList) repErrA1
          [(("A1".toList), [c1sentA1, c2pendingA1])])
      = some ([c1sentA1, c2pendingA1].set 0
          { c1sentA1 with status := .completed, completedAt := some 9,
                          response := some repErrA1 }) :=
  (C6_amended 9 ("A1".toList) repErrA1 [(("A1".toList), [c1sentA1, c2pendingA1])]
    [c1sentA1, c2pendingA1] 0 c1sentA1 rfl rfl rfl).1

/-- C7 (counterexample): resolving a command that is `pending` — not `sent`
— is not a no-op: its status is overwritten to `completed`. -/
theorem C7_counterexample :
    ((getA ("A1".toList)
        (processCommandResponse 9 ("A1".toList) repAckCMD1
          [(("A1".toList), [c1pendingA1])])).getD []).map (fun c => c.status)
      = [CommandStatus.completed] := rfl

/-- C7 (amended): a resolve is tolerated without a hard error in every
case, but it is a no-op only when the response's `CommandUUID` matches no
queued command; a matched command is overwritten to `completed` regardless
of its prior state. -/
theorem C7_amended (now : Nat) (udid : JStr) (rep : Rec) (cq : CommandQueue)
    (h : ((getA udid cq).getD []).findIdx?
        (fun c => isStrV (getA ("CommandUUID".toList) rep) c.id) = none) :
    processCommandResponse now udid rep cq = cq := by
  unfold processCommandResponse
  dsimp only
  rw [h]

/-- C7 (amended) witness: a response referencing `CMD1` against a queue
holding only `CMD2` leaves the queue unchanged. -/
theorem C7_amended_witness :
    processCommandResponse 9 ("A1".toList) repAckCMD1 [(("A1".toList), [c2pendingA1])]
      = [(("A1".toList), [c2pendingA1])] :=
  C7_amended 9 ("A1".toList) repAckCMD1 [(("A1".toList), [c2pendingA1])] rfl

/-- C8 (counterexample): the lock endpoint enqueues against the identifier
`ghost` although it has no registry record — a `DeviceLock` command is
appended in `pending` state, and no error is raised. -/
theorem C8_counterexample :
    getA ("ghost".toList) initialState.devices = none
    ∧ ((getA ("ghost".toList)
        (apiLockDevice ("CMD9".toList) 7 ("ghost".toList) PValue.nullV PValue.nullV
          initialState).1.commandQueue).getD []).map (fun c => (c.id, c.status))
      = [(("CMD9".toList), CommandStatus.pending)] :=
  ⟨rfl, rfl⟩

/-- C8 (amended): only the generic command-submission endpoint rejects an
unknown device — it returns the not-found error and appends nothing; the
lock and query endpoints append without a registry check. -/
theorem C8_amended (freshId : JStr) (now : Nat) (udid commandType : JStr)
    (payload : Option Rec) (st : ServerState)
    (h : getA udid st.devices = none) :
    apiQueueCommand freshId now udid commandType payload st = (st, none) := by
  unfold apiQueueCommand
  rw [h]

/-- C8 (amended) witness. -/
theorem C8_amended_witness :
    apiQueueCommand ("CMD9".toList) 7 ("ghost".toList) ("DeviceLock".toList) none
      initialState = (initialState, none) :=
  C8_amended ("CMD9".toList) 7 ("ghost".toList) ("DeviceLock".toList) none initialState rfl

/-- C9 (counterexample): an `Error` status report from the known device
`A1` referencing the sent `CMD1` resolves nothing and delivers nothing: the
command queue is unchanged (`CMD1` stays `sent`, `CMD2` stays `pending`)
and the response is the empty acknowledgment instead of a command
request. -/
theorem C9_counterexample :
    (putMdm 9 repErrA1 stSentA1).1.commandQueue = stSentA1.commandQueue
    ∧ (putMdm 9 repErrA1 stSentA1).2 = some emptyAck :=
  ⟨rfl, rfl⟩

/-- C9 (amended): for a known device, any status other than `Idle` and
`Acknowledged` (hence in particular `Error` and `NotNow`) only stamps
`lastCheckIn` and returns the empty acknowledgment: no command is resolved
and none is delivered. -/
theorem C9_amended (now : Nat) (rep : Rec) (st : ServerState) (u : JStr) (d : MDMDevice)
    (hu : repStrField ("UDID".toList) rep = some u)
    (hd : getA u st.devices = some d)
    (h1 : isStrV (getA ("Status".toList) rep) ("Idle".toList) = false)
    (h2 : isStrV (getA ("Status".toList) rep) ("Acknowledged".toList) = false) :
    putMdm now rep st
      = ({ devices := setA u { d with lastCheckIn := some now } st.devices,
           commandQueue := st.commandQueue }, some emptyAck) := by
  unfold putMdm
  rw [hu]
  simp only []
  rw [hd]
  simp only []
  rw [if_neg (fun hcon => Bool.noConfusion (h1.symm.trans hcon)),
      if_neg (fun hcon => Bool.noConfusion (h2.symm.trans hcon))]

/-- C9 (amended) witness. -/
theorem C9_amended_witness :
    putMdm 9 repErrA1 stSentA1
      = ({ devices := setA ("A1".toList) { devEnrolledA1 with lastCheckIn := some 9 }
             stSentA1.devices,
           commandQueue := stSentA1.commandQueue }, some emptyAck) :=
  C9_amended 9 repErrA1 stSentA1 ("A1".toList) devEnrolledA1 rfl rfl rfl rfl

/-- C10: in every state reachable from boot by any operation sequence, a
device record carrying a push token or push magic has completed enrollment:
its `enrolledAt` stamp is set and its state is not `pending` (so a record
that was only authenticated into `pending` and never enrolled carries no
push credentials). -/
theorem C10_push_implies_enrolled (ops : List ServerOp) :
    pushImpliesEnrolled (runOps ops).devices := by
  unfold runOps
  refine pushInv_runAux ops initialState ?_
  intro u d hget hpush
  simp [initialState, getA] at hget

/-- C10 witness: after authenticate + token-update, the enrolled `A1`
record holds push credentials and the theorem yields its completed
enrollment. -/
theorem C10_witness :
    ({ mkAuthDevice ("uuid-1".toList) msgAuthA1 with
        pushToken := some ("tokA".toList), pushMagic := some ("magA".toList),
        enrollmentStatus := EnrollmentStatus.enrolled, enrolledAt := some 5,
        lastCheckIn := some 5 } : MDMDevice).enrolledAt ≠ none
    ∧ ({ mkAuthDevice ("uuid-1".toList) msgAuthA1 with
        pushToken := some ("tokA".toList), pushMagic := some ("magA".toList),
        enrollmentStatus := EnrollmentStatus.enrolled, enrolledAt := some 5,
        lastCheckIn := some 5 } : MDMDevice).enrollmentStatus ≠ EnrollmentStatus.pending :=
  C10_push_implies_enrolled opsEnrollA1 ("A1".toList) _ rfl (Or.inl (by simp))
